import Mathlib

/-!
Verification of the inkx-ui progress core: the declarative step-tree parser
(`src/progress/step-node.ts`) and the ETA estimation utilities
(`src/utils/eta.ts`, re-exported by `src/utils/index.ts` and exercised by
`tests/eta.test.ts`).

The step-tree subsystem is embedded from `step-node.ts` directly.  Because the
parser dispatches on JavaScript runtime shapes (`typeof v === "function"`,
`Array.isArray(v) && v.length === 2`, `typeof v === "object" && v !== null`),
values are modelled by an inductive `JSVal` covering the runtime shapes that
matter: callables, strings, numbers, booleans, `null`, `undefined`, arrays and
plain objects.  Callables are identified by an opaque numeric id; object
entries are kept in insertion order, as `Object.entries` yields them.
-/

inductive JSVal where
  | func (id : Nat)
  | str (s : String)
  | num (n : Int)
  | boolean (b : Bool)
  | null
  | undef
  | arr (elems : List JSVal)
  | obj (entries : List (String × JSVal))

/-- A step-definition mapping, i.e. `Object.entries` of a user object in
insertion order. -/
def StepsDef : Type := List (String × JSVal)

/-- The `StepNode` interface of `step-node.ts`: `label`, `key`, optional
`work`, optional `children`, `indent`.  `label` is a `JSVal` (not a `String`)
because the tuple branch of the parser copies `value[0]` into `label` without
checking that it is a string; on well-typed input it is always `.str`. -/
inductive StepNode where
  | mk (label : JSVal) (key : String) (work : Option JSVal)
       (children : Option (List StepNode)) (indent : Nat)

def StepNode.label : StepNode → JSVal
  | .mk l _ _ _ _ => l

def StepNode.key : StepNode → String
  | .mk _ k _ _ _ => k

def StepNode.work : StepNode → Option JSVal
  | .mk _ _ w _ _ => w

def StepNode.children : StepNode → Option (List StepNode)
  | .mk _ _ _ c _ => c

def StepNode.indent : StepNode → Nat
  | .mk _ _ _ _ i => i

/-! ### The label generator

The source is a chain of six string transformations:
`.replace(/([A-Z])/g, " $1")`, `.replace(/(\d+)/g, " $1")`, `.toLowerCase()`,
`.trim()`, `.replace(/\s+/g, " ")`, `.replace(/^./, s => s.toUpperCase())`.
Each link is embedded as its own function over `List Char`. -/

/-- The regex class `[A-Z]` (ASCII uppercase only). -/
def isAZUpper (c : Char) : Bool := 'A' ≤ c && c ≤ 'Z'

/-- The regex class `\d`, i.e. `[0-9]`. -/
def isDigitChar (c : Char) : Bool := '0' ≤ c && c ≤ '9'

/-- The regex class `\s` / the character set removed by `String.prototype.trim`.
The ASCII members plus NBSP and the BOM are listed; the remaining Unicode
space separators can only occur in non-ASCII input. -/
def isJsSpace (c : Char) : Bool :=
  c = ' ' || c = '\t' || c = '\n' || c = '\r' || c.val = 11 || c.val = 12 ||
    c.val = 0xa0 || c.val = 0xfeff

/-- Step 1, `.replace(/([A-Z])/g, " $1")`: a space goes in front of every
ASCII uppercase letter. -/
def spaceBeforeUppers (s : List Char) : List Char :=
  s.flatMap (fun c => if isAZUpper c then [' ', c] else [c])

/-- Step 2, `.replace(/(\d+)/g, " $1")`: a space goes in front of every
maximal run of digits, i.e. in front of a digit whose predecessor in the
original string is not a digit.  The first argument carries the
predecessor. -/
def spaceBeforeDigitRuns : Option Char → List Char → List Char
  | _, [] => []
  | prev, c :: rest =>
    (if isDigitChar c && !(match prev with
                           | some p => isDigitChar p
                           | none => false)
     then [' ', c] else [c]) ++ spaceBeforeDigitRuns (some c) rest

/-- Step 3, `.toLowerCase()` on the ASCII fragment the pipeline produces. -/
def lowerAll (s : List Char) : List Char := s.map Char.toLower

/-- Step 4, `.trim()`: strip whitespace from both ends. -/
def trimWs (s : List Char) : List Char :=
  ((s.dropWhile isJsSpace).reverse.dropWhile isJsSpace).reverse

/-- Worker for `.replace(/\s+/g, " ")`: a whitespace char whose predecessor is
also whitespace is dropped, otherwise it becomes a single `' '`. -/
def collapseWsAux : Option Char → List Char → List Char
  | _, [] => []
  | prev, c :: rest =>
    (if isJsSpace c then
       (match prev with
        | some p => if isJsSpace p then [] else [' ']
        | none => [' '])
     else [c]) ++ collapseWsAux (some c) rest

/-- Step 5, `.replace(/\s+/g, " ")`: collapse every whitespace run to one
space. -/
def collapseWs (s : List Char) : List Char := collapseWsAux none s

/-- Step 6, `.replace(/^./, s => s.toUpperCase())`: uppercase the first
character.  The regex `.` does not match line terminators, so a leading one
is kept. -/
def capFirst : List Char → List Char
  | [] => []
  | c :: rest =>
    if c = '\n' || c = '\r' || c.val = 0x2028 || c.val = 0x2029 then c :: rest
    else c.toUpper :: rest

/-- The function `generateLabel` from `step-node.ts`: the chain of the six
steps above. -/
def generateLabel (fnName : String) : String :=
  String.mk (capFirst (collapseWs (trimWs (lowerAll
    (spaceBeforeDigitRuns none (spaceBeforeUppers fnName.data))))))

/-! ### The parser

`parseStepsDef` iterates `Object.entries(def)` in insertion order and
dispatches per entry:
* `typeof value === "function"` — leaf with auto-generated label;
* `Array.isArray(value) && value.length === 2` — leaf taking `value[0]` as
  label and `value[1]` as work, with no check on the element types;
* `typeof value === "object" && value !== null` — group parsed recursively at
  `indent + 1`.  JavaScript arrays are objects, so an array whose length is
  not 2 lands here and is recursed into via its index entries
  (`Object.entries` of an array yields `("0", x₀), ("1", x₁), …`), handled by
  `parseArr`;
* anything else (strings, numbers, booleans, `null`, `undefined`) adds no
  node. -/

mutual
def parseStepsDef (d : List (String × JSVal)) (indent : Nat) : List StepNode :=
  match d with
  | [] => []
  | (key, v) :: rest => parseEntry key v indent ++ parseStepsDef rest indent

def parseEntry (key : String) (v : JSVal) (indent : Nat) : List StepNode :=
  match v with
  | .func f => [.mk (.str (generateLabel key)) key (some (.func f)) none indent]
  | .arr [a, b] => [.mk a key (some b) none indent]
  | .arr xs =>
    [.mk (.str (generateLabel key)) key none (some (parseArr xs 0 (indent + 1))) indent]
  | .obj entries =>
    [.mk (.str (generateLabel key)) key none
      (some (parseStepsDef entries (indent + 1))) indent]
  | _ => []

def parseArr (xs : List JSVal) (i : Nat) (indent : Nat) : List StepNode :=
  match xs with
  | [] => []
  | v :: rest => parseEntry (toString i) v indent ++ parseArr rest (i + 1) indent
end

/-- The predicate `isStepsDef` from `step-node.ts`: non-null, non-array,
non-callable object. -/
def isStepsDef : JSVal → Bool
  | .obj _ => true
  | _ => false

/-- Is the value a string (`typeof v === "string"`)? -/
def isStringVal : JSVal → Bool
  | .str _ => true
  | _ => false

/-- Is the value callable (`typeof v === "function"`)? -/
def isFunctionVal : JSVal → Bool
  | .func _ => true
  | _ => false

/-- The predicate `isLabelTuple` from `step-node.ts`: a two-element array
whose first element is a string and whose second is callable. -/
def isLabelTuple : JSVal → Bool
  | .arr [a, b] => isStringVal a && isFunctionVal b
  | _ => false

/-- JavaScript truthiness of a value, used by `if (node.work)` and
`if (node.children)` in the traversals. -/
def jsTruthy : JSVal → Bool
  | .func _ => true
  | .str s => !s.isEmpty
  | .num n => n != 0
  | .boolean b => b
  | .null => false
  | .undef => false
  | .arr _ => true
  | .obj _ => true

/-- Truthiness of an optional field: an absent property reads as `undefined`,
which is falsy. -/
def optTruthy : Option JSVal → Bool
  | none => false
  | some v => jsTruthy v

/-- The function `flattenStepNodes`: push each node, then — because an array
(even an empty one) is truthy, so `if (node.children)` fires whenever the
field is set — recurse into its children, then continue with its
siblings. -/
def flattenStepNodes : List StepNode → List StepNode
  | [] => []
  | .mk l k w (some cs) i :: rest =>
    .mk l k w (some cs) i :: (flattenStepNodes cs ++ flattenStepNodes rest)
  | .mk l k w none i :: rest => .mk l k w none i :: flattenStepNodes rest

/-- The function `getLeafNodes`: push a node iff `node.work` is truthy, and
independently recurse into children when present. -/
def getLeafNodes : List StepNode → List StepNode
  | [] => []
  | .mk l k w (some cs) i :: rest =>
    (if optTruthy w then [.mk l k w (some cs) i] else []) ++
      (getLeafNodes cs ++ getLeafNodes rest)
  | .mk l k w none i :: rest =>
    (if optTruthy w then [.mk l k w none i] else []) ++ getLeafNodes rest

/-! ### Specification-side predicates and definitions -/

mutual
/-- The `StepsDef` TypeScript type: every value is a callable, a
`[string, callable]` pair, or recursively another well-formed mapping.  The
claims about invariants of parsed trees quantify over these inputs. -/
def wellFormedDef : List (String × JSVal) → Bool
  | [] => true
  | (_, v) :: rest => wellFormedVal v && wellFormedDef rest

def wellFormedVal : JSVal → Bool
  | .func _ => true
  | .arr [a, b] => isStringVal a && isFunctionVal b
  | .obj entries => wellFormedDef entries
  | _ => false
end

/-- A property (as stored on a node) is populated when it is present and not
`undefined`. -/
def workPopulated : Option JSVal → Bool
  | none => false
  | some .undef => false
  | some _ => true

/-- Exactly one of `work` and `children` is populated on this node. -/
def exactlyOnePopulated : StepNode → Bool
  | .mk _ _ w c _ => xor (workPopulated w) c.isSome

/-- Does `p` hold on every node of the forest, at every depth? -/
def allNodes (p : StepNode → Bool) : List StepNode → Bool
  | [] => true
  | .mk l k w (some cs) i :: rest =>
    p (.mk l k w (some cs) i) && allNodes p cs && allNodes p rest
  | .mk l k w none i :: rest => p (.mk l k w none i) && allNodes p rest

/-- The node's `work` field respects the `StepNode` interface type: absent or
a callable. -/
def wellTypedWork : StepNode → Bool
  | .mk _ _ none _ _ => true
  | .mk _ _ (some (.func _)) _ _ => true
  | .mk _ _ (some _) _ _ => false

mutual
/-- Depth-first pre-order traversal as the specification words it: each node
is emitted, immediately followed (recursively) by its children, before the
next sibling.  Stated independently of `flattenStepNodes` so the two can be
compared. -/
def preorderTraversal (nodes : List StepNode) : List StepNode :=
  match nodes with
  | [] => []
  | n :: rest => (n :: preorderChildren n) ++ preorderTraversal rest

def preorderChildren : StepNode → List StepNode
  | .mk _ _ _ none _ => []
  | .mk _ _ _ (some cs) _ => preorderTraversal cs
end

/-- Leaf used by the concrete group-of-two-leaves test tree. -/
def sampleChild1 : StepNode :=
  .mk (.str "Child one") "childOne" (some (.func 1)) none 1

/-- Second leaf of the test tree. -/
def sampleChild2 : StepNode :=
  .mk (.str "Child two") "childTwo" (some (.func 2)) none 1

/-- The group node of the test tree, holding the two leaves. -/
def sampleGroup : StepNode :=
  .mk (.str "Group") "group" none (some [sampleChild1, sampleChild2]) 0

/-- A small well-formed definition: one function entry and one nested-map
entry. -/
def sampleDef : List (String × JSVal) :=
  [("loadModules", .func 0), ("buildSite", .obj [("renderPages", .func 1)])]

/-! ### ETA utilities

`src/utils/eta.ts` itself is not in the sources; only its export list
(`src/utils/index.ts`) and its test suite (`tests/eta.test.ts`) are.  The
definitions below are therefore modelled from the specification (§3, §4.1),
pinned to the observable behaviour the test suite fixes.  JavaScript numbers
are modelled as exact rationals; the special floating-point inputs that
`formatETA` must reject are covered by the dedicated `JSNum` type. -/

/-- Modelled from the spec: a `Sample`, the immutable
`(time, value)` observation pair (`ETASample` in the export list). -/
structure ETASample where
  time : ℚ
  value : ℚ
deriving DecidableEq

/-- Last element of the nonempty list `a :: rest` (the newest sample). -/
def lastSample : ETASample → List ETASample → ETASample
  | a, [] => a
  | _, b :: rest => lastSample b rest

/-- Modelled from the spec: `calculateETA(buffer, current, total)`.  Fewer
than 2 samples yields `none`; elapsed time and progress delta come from the
first and last samples only; a nonpositive delta of either kind yields
`none`; otherwise the remaining work `max 0 (total - current)` is divided by
the rate.  The spec prose divides by `Δv / Δt` with raw `Δt`, but its own
example and the test suite (`calculateETA([{time:1000,value:0},
{time:2000,value:10}], 10, 100) = 9`) fix timestamps in milliseconds and the
result in seconds, so the elapsed time is converted by `/ 1000`; the division
is exact here, which is all the integer-second test cases constrain. -/
def calculateETA (buffer : List ETASample) (current total : ℚ) : Option ℚ :=
  match buffer with
  | first :: second :: rest =>
    let last := lastSample second rest
    let dt := (last.time - first.time) / 1000
    let dv := last.value - first.value
    if dt ≤ 0 ∨ dv ≤ 0 then none
    else some (max 0 (total - current) / (dv / dt))
  | _ => none

/-- A JavaScript number as `formatETA` receives it: NaN, an infinity, or a
finite value. -/
inductive JSNum where
  | nan
  | posInf
  | negInf
  | finite (q : ℚ)
deriving DecidableEq

/-- Zero-pad an integer to two digits. -/
def pad2 (n : ℤ) : String := if 0 ≤ n ∧ n < 10 then "0" ++ toString n else toString n

/-- Modelled from the spec: `formatETA(seconds | null)`.  Rules in order:
absent/NaN/±infinity give `"--:--"`; a value over 86400 gives `">1d"`; a
value of at least 3600 gives `H:MM:SS` with hours unpadded; anything else
gives `M:SS` with minutes unpadded. -/
def formatETA : Option JSNum → String
  | none => "--:--"
  | some .nan => "--:--"
  | some .posInf => "--:--"
  | some .negInf => "--:--"
  | some (.finite q) =>
    if 86400 < q then ">1d"
    else if 3600 ≤ q then
      toString ⌊q / 3600⌋ ++ ":" ++ pad2 (⌊q / 60⌋ % 60) ++ ":" ++ pad2 (⌊q⌋ % 60)
    else
      toString ⌊q / 60⌋ ++ ":" ++ pad2 (⌊q⌋ % 60)

/-- Modelled from the spec: the `ETAResult` pair `(seconds, formatted)`. -/
structure ETAResult where
  seconds : Option ℚ
  formatted : String

/-- Modelled from the spec: `getETA` composes `calculateETA` with
`formatETA` and returns both. -/
def getETA (buffer : List ETASample) (current total : ℚ) : ETAResult :=
  let s := calculateETA buffer current total
  ⟨s, formatETA (s.map JSNum.finite)⟩

/-- Modelled from the spec: the exported default buffer capacity,
`DEFAULT_ETA_BUFFER_SIZE = 10`. -/
def DEFAULT_ETA_BUFFER_SIZE : Nat := 10

/-- Modelled from the spec: the state of a tracker made by
`createETATracker` — its configured capacity and its bounded sample
buffer. -/
structure ETATracker where
  bufferSize : Nat
  buffer : List ETASample
deriving DecidableEq

/-- Modelled from the spec: `createETATracker(bufferSize = 10)` starts with
an empty buffer. -/
def createETATracker (bufferSize : Nat := DEFAULT_ETA_BUFFER_SIZE) : ETATracker :=
  ⟨bufferSize, []⟩

/-- Modelled from the spec: `record(value, time)` appends a sample and, when
the capacity is exceeded, evicts the oldest sample (FIFO). -/
def ETATracker.record (t : ETATracker) (value : ℚ) (time : ℚ) : ETATracker :=
  let b := t.buffer ++ [⟨time, value⟩]
  ⟨t.bufferSize, if t.bufferSize < b.length then b.drop 1 else b⟩

/-- Modelled from the spec: `reset()` clears the buffer. -/
def ETATracker.reset (t : ETATracker) : ETATracker := ⟨t.bufferSize, []⟩

/-- Modelled from the spec: `getBuffer()` exposes the current buffer
contents. -/
def ETATracker.getBuffer (t : ETATracker) : List ETASample := t.buffer

/-- One externally observable tracker operation. -/
inductive TrackerOp where
  | record (value : ℚ) (time : ℚ)
  | reset

/-- Apply one operation to the tracker state. -/
def applyOp (t : ETATracker) : TrackerOp → ETATracker
  | .record v tm => t.record v tm
  | .reset => t.reset

/-- Apply a sequence of operations in order. -/
def applyOps (t : ETATracker) (ops : List TrackerOp) : ETATracker :=
  ops.foldl applyOp t

/-- Record a list of samples in order. -/
def recordMany (t : ETATracker) (samples : List ETASample) : ETATracker :=
  samples.foldl (fun t s => t.record s.value s.time) t

/-! ### Helper lemmas -/

theorem allNodes_append (p : StepNode → Bool) (l₁ l₂ : List StepNode) :
    allNodes p (l₁ ++ l₂) = (allNodes p l₁ && allNodes p l₂) := by
  induction l₁ with
  | nil => simp [allNodes]
  | cons n rest ih =>
    obtain ⟨l, k, w, c, i⟩ := n
    cases c <;> simp [allNodes, ih, Bool.and_assoc]

theorem flatten_eq_preorder (nodes : List StepNode) :
    flattenStepNodes nodes = preorderTraversal nodes := by
  induction nodes using flattenStepNodes.induct
  case case1 => simp [flattenStepNodes, preorderTraversal]
  case case2 l k w cs i rest ih1 ih2 =>
    simp [flattenStepNodes, preorderTraversal, preorderChildren, ih1, ih2]
  case case3 l k w i rest ih =>
    simp [flattenStepNodes, preorderTraversal, preorderChildren, ih]

theorem getLeaf_eq_filter_flatten (nodes : List StepNode)
    (h : allNodes wellTypedWork nodes = true) :
    getLeafNodes nodes =
      (flattenStepNodes nodes).filter (fun n => workPopulated n.work) := by
  induction nodes using getLeafNodes.induct
  case case1 => simp [getLeafNodes, flattenStepNodes]
  case case2 l k w cs i rest ih1 ih2 =>
    simp only [allNodes, Bool.and_eq_true] at h
    obtain ⟨⟨hw, hcs⟩, hrest⟩ := h
    cases w with
    | none =>
      simp [getLeafNodes, flattenStepNodes, StepNode.work, workPopulated,
        optTruthy, List.filter_append, ih1 hcs, ih2 hrest]
    | some v =>
      cases v <;> simp_all [wellTypedWork, getLeafNodes, flattenStepNodes,
        StepNode.work, workPopulated, optTruthy, jsTruthy, List.filter_append,
        ih1 hcs, ih2 hrest]
  case case3 l k w i rest ih =>
    simp only [allNodes, Bool.and_eq_true] at h
    obtain ⟨hw, hrest⟩ := h
    cases w with
    | none =>
      simp [getLeafNodes, flattenStepNodes, StepNode.work, workPopulated,
        optTruthy, ih hrest]
    | some v =>
      cases v <;> simp_all [wellTypedWork, getLeafNodes, flattenStepNodes,
        StepNode.work, workPopulated, optTruthy, jsTruthy, ih hrest]

/-! ### Claims about `generateLabel` -/

/-- Claim C6: `generateLabel` is exactly the composition of the six
transformations — space before every uppercase letter, space before every
digit run, lowercase, trim, collapse whitespace runs, uppercase the first
character — and maps the three reference inputs to their exact outputs. -/
theorem C6_generateLabel_pipeline :
    (∀ s : String, generateLabel s =
      String.mk (capFirst (collapseWs (trimWs (lowerAll
        (spaceBeforeDigitRuns none (spaceBeforeUppers s.data))))))) ∧
    generateLabel "loadModules" = "Load modules" ∧
    generateLabel "parseMarkdown" = "Parse markdown" ∧
    generateLabel "initBoardStateGenerator" = "Init board state generator" :=
  ⟨fun _ => rfl, rfl, rfl, rfl⟩

/-- Claim C10: a run of consecutive uppercase letters is split into separate
single-letter lowercase words (`"parseHTML"` becomes `"Parse h t m l"`), and
the empty string maps to itself. -/
theorem C10_generateLabel_upper_runs :
    generateLabel "parseHTML" = "Parse h t m l" ∧ generateLabel "" = "" :=
  ⟨rfl, rfl⟩

/-! ### Claims about the parser -/

/-- Claim C3: the parser walks entries in insertion order and dispatches on
shape — a callable gives a leaf with generated label, a `[label, callable]`
pair gives a leaf with the given label, a nested mapping gives a group whose
children are the recursive parse at `indent + 1`; on a definition with one
function entry, one tuple entry and one nested-map entry it produces exactly
three top-level nodes in declaration order, the nested one with children and
no work, the other two with work and no children. -/
theorem C3_parse_dispatch :
    (∀ (key : String) (f : Nat) (rest : List (String × JSVal)) (indent : Nat),
      parseStepsDef ((key, JSVal.func f) :: rest) indent =
        StepNode.mk (.str (generateLabel key)) key (some (.func f)) none indent
          :: parseStepsDef rest indent) ∧
    (∀ (key lbl : String) (f : Nat) (rest : List (String × JSVal)) (indent : Nat),
      parseStepsDef ((key, JSVal.arr [.str lbl, .func f]) :: rest) indent =
        StepNode.mk (.str lbl) key (some (.func f)) none indent
          :: parseStepsDef rest indent) ∧
    (∀ (key : String) (entries : List (String × JSVal))
        (rest : List (String × JSVal)) (indent : Nat),
      parseStepsDef ((key, JSVal.obj entries) :: rest) indent =
        StepNode.mk (.str (generateLabel key)) key none
          (some (parseStepsDef entries (indent + 1))) indent
          :: parseStepsDef rest indent) ∧
    parseStepsDef
      [("loadModules", JSVal.func 0),
       ("fetchData", JSVal.arr [.str "Fetch the data", .func 1]),
       ("buildSite", JSVal.obj [("renderPages", JSVal.func 2)])] 0 =
      [StepNode.mk (.str "Load modules") "loadModules" (some (.func 0)) none 0,
       StepNode.mk (.str "Fetch the data") "fetchData" (some (.func 1)) none 0,
       StepNode.mk (.str "Build site") "buildSite" none
         (some [StepNode.mk (.str "Render pages") "renderPages"
           (some (.func 2)) none 1]) 0] := by
  refine ⟨fun key f rest indent => ?_, fun key lbl f rest indent => ?_,
    fun key entries rest indent => ?_, ?_⟩
  · simp [parseStepsDef, parseEntry]
  · simp [parseStepsDef, parseEntry]
  · simp [parseStepsDef, parseEntry]
  · rfl

/-- Claim C2, counterexample: the claim says a two-element array whose
elements are not a string and a callable produces no node, but the length-2
branch of `parseStepsDef` never inspects the element types, so
`{ a: [1, 2] }` produces a leaf node carrying the numbers. -/
theorem C2_counterexample :
    parseStepsDef [("a", JSVal.arr [.num 1, .num 2])] 0 =
      [StepNode.mk (.num 1) "a" (some (.num 2)) none 0] ∧
    ¬ parseStepsDef [("a", JSVal.arr [.num 1, .num 2])] 0 = [] := by
  constructor
  · rfl
  · intro h
    have hlen := congrArg List.length h
    rw [show parseStepsDef [("a", JSVal.arr [.num 1, .num 2])] 0 =
      [StepNode.mk (.num 1) "a" (some (.num 2)) none 0] from rfl] at hlen
    simp at hlen

/-- Claim C2, amended: only primitive values — strings, numbers, booleans,
`null`, `undefined` — are silently skipped.  Any two-element array produces a
leaf node with its first element as label and its second as work, with no
type validation; an array of any other length is treated as a nested mapping
and produces a group node whose children are the recursive parse of the
array's index-value entries. -/
theorem C2_parse_skip_amended :
    (∀ (key s : String) (rest : List (String × JSVal)) (indent : Nat),
      parseStepsDef ((key, JSVal.str s) :: rest) indent = parseStepsDef rest indent) ∧
    (∀ (key : String) (n : Int) (rest : List (String × JSVal)) (indent : Nat),
      parseStepsDef ((key, JSVal.num n) :: rest) indent = parseStepsDef rest indent) ∧
    (∀ (key : String) (b : Bool) (rest : List (String × JSVal)) (indent : Nat),
      parseStepsDef ((key, JSVal.boolean b) :: rest) indent = parseStepsDef rest indent) ∧
    (∀ (key : String) (rest : List (String × JSVal)) (indent : Nat),
      parseStepsDef ((key, JSVal.null) :: rest) indent = parseStepsDef rest indent) ∧
    (∀ (key : String) (rest : List (String × JSVal)) (indent : Nat),
      parseStepsDef ((key, JSVal.undef) :: rest) indent = parseStepsDef rest indent) ∧
    (∀ (key : String) (a b : JSVal) (rest : List (String × JSVal)) (indent : Nat),
      parseStepsDef ((key, JSVal.arr [a, b]) :: rest) indent =
        StepNode.mk a key (some b) none indent :: parseStepsDef rest indent) ∧
    (∀ (key : String) (xs : List JSVal) (rest : List (String × JSVal)) (indent : Nat),
      xs.length ≠ 2 →
      parseStepsDef ((key, JSVal.arr xs) :: rest) indent =
        StepNode.mk (.str (generateLabel key)) key none
          (some (parseArr xs 0 (indent + 1))) indent :: parseStepsDef rest indent) := by
  refine ⟨fun key s rest indent => by simp [parseStepsDef, parseEntry],
    fun key n rest indent => by simp [parseStepsDef, parseEntry],
    fun key b rest indent => by simp [parseStepsDef, parseEntry],
    fun key rest indent => by simp [parseStepsDef, parseEntry],
    fun key rest indent => by simp [parseStepsDef, parseEntry],
    fun key a b rest indent => by simp [parseStepsDef, parseEntry],
    fun key xs rest indent h => ?_⟩
  rcases xs with _ | ⟨a, _ | ⟨b, tl⟩⟩
  · simp [parseStepsDef, parseEntry]
  · simp [parseStepsDef, parseEntry]
  · rcases tl with _ | ⟨c, tl2⟩
    · exact absurd rfl h
    · simp [parseStepsDef, parseEntry]

/-- Claim C2, witness: the amended length-not-2 case applied to a
three-element array. -/
theorem C2_parse_skip_witness :
    ([JSVal.num 1, JSVal.num 2, JSVal.num 3] : List JSVal).length ≠ 2 ∧
    parseStepsDef [("a", JSVal.arr [.num 1, .num 2, .num 3])] 0 =
      StepNode.mk (.str (generateLabel "a")) "a" none
        (some (parseArr [.num 1, .num 2, .num 3] 0 1)) 0 :: parseStepsDef [] 0 :=
  ⟨by simp,
   C2_parse_skip_amended.2.2.2.2.2.2 "a" [.num 1, .num 2, .num 3] [] 0 (by simp)⟩

/-- Claim C7: on every well-formed Steps Definition and every starting
indent, every node of the parsed tree, at every depth, has exactly one of
`work` and `children` populated. -/
theorem C7_parse_exactly_one :
    ∀ (d : List (String × JSVal)) (indent : Nat), wellFormedDef d = true →
      allNodes exactlyOnePopulated (parseStepsDef d indent) = true := by
  intro d indent
  induction d, indent using parseStepsDef.induct
  case motive_2 key v indent =>
    exact wellFormedVal v = true →
      allNodes exactlyOnePopulated (parseEntry key v indent) = true
  case motive_3 xs i indent => exact True
  case case1 key indent f =>
    intro _
    simp [parseEntry, allNodes, exactlyOnePopulated, workPopulated]
  case case2 key indent a b =>
    intro hwf
    simp only [wellFormedVal, Bool.and_eq_true] at hwf
    obtain ⟨-, hb⟩ := hwf
    cases b <;>
      simp_all [isFunctionVal, parseEntry, allNodes, exactlyOnePopulated, workPopulated]
  case case3 key indent xs hne ih =>
    intro hwf
    exfalso
    rcases xs with _ | ⟨a, _ | ⟨b, _ | ⟨c, tl⟩⟩⟩
    · simp [wellFormedVal] at hwf
    · simp [wellFormedVal] at hwf
    · exact hne a b rfl
    · simp [wellFormedVal] at hwf
  case case4 key indent entries ih =>
    intro hwf
    simp only [wellFormedVal] at hwf
    simp [parseEntry, allNodes, exactlyOnePopulated, workPopulated, ih hwf]
  case case5 t key indent h1 h2 h3 h4 =>
    intro hwf
    cases t <;> simp_all [wellFormedVal, parseEntry, allNodes]
  case case6 i indent => trivial
  case case7 i indent v rest ih1 ih2 => trivial
  case case8 indent =>
    intro _
    simp [parseStepsDef, allNodes]
  case case9 indent key v rest ih1 ih2 =>
    intro hwf
    simp only [wellFormedDef, Bool.and_eq_true] at hwf
    simp only [parseStepsDef, allNodes_append, Bool.and_eq_true]
    exact ⟨ih1 hwf.1, ih2 hwf.2⟩

/-- Claim C7, witness: the invariant evaluated on a concrete well-formed
definition with a nested group. -/
theorem C7_parse_exactly_one_witness :
    wellFormedDef sampleDef = true ∧
    allNodes exactlyOnePopulated (parseStepsDef sampleDef 0) = true :=
  ⟨by simp [sampleDef, wellFormedDef, wellFormedVal],
   C7_parse_exactly_one sampleDef 0
     (by simp [sampleDef, wellFormedDef, wellFormedVal])⟩

/-- Claim C8: `flattenStepNodes` returns the nodes in depth-first pre-order —
each node is emitted, immediately followed (recursively) by its children,
before the next sibling, with group nodes included — and on a tree with one
group of two leaf children it yields exactly `[group, child1, child2]`. -/
theorem C8_flatten_preorder :
    (∀ nodes : List StepNode, flattenStepNodes nodes = preorderTraversal nodes) ∧
    flattenStepNodes [sampleGroup] = [sampleGroup, sampleChild1, sampleChild2] := by
  refine ⟨flatten_eq_preorder, ?_⟩
  simp [flattenStepNodes, sampleGroup, sampleChild1, sampleChild2]

/-- Claim C9: on trees whose `work` fields respect the `StepNode` interface
type (absent or a callable), `getLeafNodes` is exactly the subsequence of
`flattenStepNodes` with populated `work` — groups are traversed but not
emitted — and on the group-of-two-leaves tree it yields
`[child1, child2]`. -/
theorem C9_leaf_filter :
    (∀ nodes : List StepNode, allNodes wellTypedWork nodes = true →
      getLeafNodes nodes =
        (flattenStepNodes nodes).filter (fun n => workPopulated n.work)) ∧
    getLeafNodes [sampleGroup] = [sampleChild1, sampleChild2] := by
  refine ⟨getLeaf_eq_filter_flatten, ?_⟩
  simp [getLeafNodes, sampleGroup, sampleChild1, sampleChild2, optTruthy, jsTruthy]

/-- Claim C9, witness: the filter characterisation evaluated on the concrete
group-of-two-leaves tree. -/
theorem C9_leaf_filter_witness :
    allNodes wellTypedWork [sampleGroup] = true ∧
    getLeafNodes [sampleGroup] =
      (flattenStepNodes [sampleGroup]).filter (fun n => workPopulated n.work) :=
  ⟨by simp [allNodes, wellTypedWork, sampleGroup, sampleChild1, sampleChild2],
   C9_leaf_filter.1 [sampleGroup]
     (by simp [allNodes, wellTypedWork, sampleGroup, sampleChild1, sampleChild2])⟩

/-! ### Claims about the ETA estimator -/

theorem div1000_nonpos_iff (a : ℚ) : a / 1000 ≤ 0 ↔ a ≤ 0 := by
  rw [div_le_iff₀ (by norm_num : (0 : ℚ) < 1000)]
  norm_num

/-- Claim C1, counterexample: on the reference buffer the claim's formula
`max 0 (total - current) / (Δv / Δt)` with raw `Δt = last.time - first.time`
gives `90 / (10 / 1000) = 9000`, but the function (as pinned by the test
suite) returns `9`. -/
theorem C1_formula_counterexample :
    calculateETA [⟨1000, 0⟩, ⟨2000, 10⟩] 10 100 = some 9 ∧
    ¬ calculateETA [⟨1000, 0⟩, ⟨2000, 10⟩] 10 100 =
        some (max 0 ((100 : ℚ) - 10) / (((10 : ℚ) - 0) / ((2000 : ℚ) - 1000))) := by
  constructor
  · norm_num [calculateETA, lastSample]
  · norm_num [calculateETA, lastSample]

/-- Claim C1, amended: `calculateETA` returns `none` exactly when the buffer
has fewer than 2 samples, or `Δt = last.time - first.time ≤ 0`, or
`Δv = last.value - first.value ≤ 0` (first and last samples only); otherwise
it returns `max 0 (total - current) / (Δv / (Δt / 1000))` — the timestamps
are milliseconds and the rate is per second — and when `current ≥ total` the
result is `0`, not `none`. -/
theorem C1_calculateETA_spec :
    (∀ (buffer : List ETASample) (current total : ℚ), buffer.length < 2 →
      calculateETA buffer current total = none) ∧
    (∀ (first second : ETASample) (rest : List ETASample) (current total : ℚ),
      lastSample second rest = (first :: second :: rest).getLast (by simp) ∧
      (calculateETA (first :: second :: rest) current total = none ↔
        (lastSample second rest).time - first.time ≤ 0 ∨
          (lastSample second rest).value - first.value ≤ 0) ∧
      (0 < (lastSample second rest).time - first.time →
        0 < (lastSample second rest).value - first.value →
        calculateETA (first :: second :: rest) current total =
          some (max 0 (total - current) /
            (((lastSample second rest).value - first.value) /
              (((lastSample second rest).time - first.time) / 1000)))) ∧
      (0 < (lastSample second rest).time - first.time →
        0 < (lastSample second rest).value - first.value →
        total ≤ current →
        calculateETA (first :: second :: rest) current total = some 0)) := by
  constructor
  · intro buffer current total h
    rcases buffer with _ | ⟨a, _ | ⟨b, r⟩⟩
    · simp [calculateETA]
    · simp [calculateETA]
    · simp at h
      omega
  · intro first second rest current total
    have hlast : ∀ (a : ETASample) (l : List ETASample),
        lastSample a l = (a :: l).getLast (by simp) := by
      intro a l
      induction l generalizing a with
      | nil => simp [lastSample]
      | cons b r ih => simp [lastSample, ih b, List.getLast]
    refine ⟨hlast second rest, ?_⟩
    have hdiv := div1000_nonpos_iff ((lastSample second rest).time - first.time)
    simp only [calculateETA]
    by_cases hc : ((lastSample second rest).time - first.time) / 1000 ≤ 0 ∨
        (lastSample second rest).value - first.value ≤ 0
    · rw [if_pos hc]
      refine ⟨⟨fun _ => ?_, fun _ => rfl⟩, fun ht hv => ?_, fun ht hv _ => ?_⟩
      · rcases hc with h | h
        · exact Or.inl (hdiv.mp h)
        · exact Or.inr h
      · exfalso
        rcases hc with h | h
        · linarith [hdiv.mp h]
        · linarith
      · exfalso
        rcases hc with h | h
        · linarith [hdiv.mp h]
        · linarith
    · rw [if_neg hc]
      push_neg at hc
      refine ⟨⟨fun h => by simp at h, fun h => ?_⟩, fun ht hv => rfl, fun ht hv htc => ?_⟩
      · exfalso
        rcases h with h | h
        · linarith [hdiv.mpr h]
        · linarith [hc.2]
      · rw [max_eq_left (sub_nonpos.mpr htc)]
        simp

/-- Claim C1, witness: the spec applied to the reference buffer, yielding the
test suite's value `9`. -/
theorem C1_calculateETA_witness :
    calculateETA [⟨1000, 0⟩, ⟨2000, 10⟩] 10 100 = some 9 := by
  have h := (C1_calculateETA_spec.2 ⟨1000, 0⟩ ⟨2000, 10⟩ [] 10 100).2.2.1
    (by norm_num [lastSample]) (by norm_num [lastSample])
  rw [h]
  norm_num [lastSample]

/-- Claim C4: `formatETA` applies its rules in order — absent, NaN and the
infinities give `"--:--"`; a value over 86400 gives `">1d"`; a value of at
least 3600 gives `H:MM:SS` with hours unpadded and minutes and seconds
zero-padded; anything else gives `M:SS` with minutes unpadded — and the
eight boundary examples hold exactly. -/
theorem C4_formatETA_rules :
    formatETA none = "--:--" ∧
    formatETA (some JSNum.nan) = "--:--" ∧
    formatETA (some JSNum.posInf) = "--:--" ∧
    formatETA (some JSNum.negInf) = "--:--" ∧
    (∀ q : ℚ, 86400 < q → formatETA (some (JSNum.finite q)) = ">1d") ∧
    (∀ q : ℚ, 3600 ≤ q → q ≤ 86400 → formatETA (some (JSNum.finite q)) =
      toString ⌊q / 3600⌋ ++ ":" ++ pad2 (⌊q / 60⌋ % 60) ++ ":" ++ pad2 (⌊q⌋ % 60)) ∧
    (∀ q : ℚ, q < 3600 → formatETA (some (JSNum.finite q)) =
      toString ⌊q / 60⌋ ++ ":" ++ pad2 (⌊q⌋ % 60)) ∧
    formatETA (some (.finite 45)) = "0:45" ∧
    formatETA (some (.finite 90)) = "1:30" ∧
    formatETA (some (.finite 125)) = "2:05" ∧
    formatETA (some (.finite 3665)) = "1:01:05" ∧
    formatETA (some (.finite 7200)) = "2:00:00" ∧
    formatETA (some (.finite 86401)) = ">1d" ∧
    formatETA (some (.finite 61)) = "1:01" ∧
    formatETA (some (.finite 3601)) = "1:00:01" := by
  refine ⟨rfl, rfl, rfl, rfl, fun q h => ?_, fun q h1 h2 => ?_, fun q h => ?_,
    ?_, ?_, ?_, ?_, ?_, ?_, ?_, ?_⟩
  · simp only [formatETA]
    rw [if_pos h]
  · simp only [formatETA]
    rw [if_neg (not_lt.mpr h2), if_pos h1]
  · simp only [formatETA]
    rw [if_neg (by linarith : ¬ (86400 : ℚ) < q), if_neg (not_le.mpr h)]
  · norm_num [formatETA, pad2]; rfl
  · norm_num [formatETA, pad2]; rfl
  · norm_num [formatETA, pad2]; rfl
  · norm_num [formatETA, pad2]; rfl
  · norm_num [formatETA, pad2]; rfl
  · norm_num [formatETA]
  · norm_num [formatETA, pad2]; rfl
  · norm_num [formatETA, pad2]; rfl

/-- Claim C4, witness: the over-one-day rule applied at 100000 seconds. -/
theorem C4_formatETA_witness :
    (86400 : ℚ) < 100000 ∧ formatETA (some (JSNum.finite 100000)) = ">1d" :=
  ⟨by norm_num, C4_formatETA_rules.2.2.2.2.1 100000 (by norm_num)⟩

/-! ### Claims about the ETA tracker -/

theorem record_buffer (t : ETATracker) (s : ETASample)
    (h : t.buffer.length ≤ t.bufferSize) :
    (t.record s.value s.time).buffer =
      (t.buffer ++ [s]).drop (t.buffer.length + 1 - t.bufferSize) ∧
    (t.record s.value s.time).buffer.length ≤ t.bufferSize ∧
    (t.record s.value s.time).bufferSize = t.bufferSize := by
  simp only [ETATracker.record, List.length_append, List.length_cons,
    List.length_nil]
  by_cases hc : t.bufferSize < t.buffer.length + (0 + 1)
  · rw [if_pos hc]
    refine ⟨?_, ?_, trivial⟩
    · rw [show t.buffer.length + 1 - t.bufferSize = 1 by omega]
    · rw [List.length_drop]
      simp only [List.length_append, List.length_cons, List.length_nil]
      omega
  · rw [if_neg hc]
    refine ⟨?_, ?_, trivial⟩
    · rw [show t.buffer.length + 1 - t.bufferSize = 0 by omega]
      rfl
    · simp only [List.length_append, List.length_cons, List.length_nil]
      omega

theorem recordMany_buffer : ∀ (samples : List ETASample) (t : ETATracker),
    t.buffer.length ≤ t.bufferSize →
    (recordMany t samples).buffer =
      (t.buffer ++ samples).drop (t.buffer.length + samples.length - t.bufferSize) ∧
    (recordMany t samples).bufferSize = t.bufferSize ∧
    (recordMany t samples).buffer.length ≤ t.bufferSize := by
  intro samples
  induction samples with
  | nil =>
    intro t h
    refine ⟨?_, rfl, h⟩
    rw [show t.buffer.length + List.length ([] : List ETASample) - t.bufferSize = 0 by
      simp only [List.length_nil]; omega]
    simp [recordMany]
  | cons s ss ih =>
    intro t h
    obtain ⟨hbuf, hlen, hsize⟩ := record_buffer t s h
    have hstep : recordMany t (s :: ss) = recordMany (t.record s.value s.time) ss := by
      simp [recordMany]
    rw [hstep]
    obtain ⟨ih1, ih2, ih3⟩ := ih (t.record s.value s.time) (by rw [hsize]; exact hlen)
    rw [hsize] at ih2 ih3
    refine ⟨?_, ih2, ih3⟩
    rw [ih1, hbuf, hsize]
    by_cases hc : t.buffer.length + 1 ≤ t.bufferSize
    · rw [show t.buffer.length + 1 - t.bufferSize = 0 by omega]
      rw [List.drop_zero, List.append_assoc, List.singleton_append]
      congr 1
      simp only [List.length_append, List.length_cons, List.length_nil]
      omega
    · rw [show t.buffer.length + 1 - t.bufferSize = 1 by omega]
      have hXlen : (List.drop 1 (t.buffer ++ [s])).length = t.buffer.length := by
        simp
      rw [hXlen,
        ← List.drop_append_of_le_length
          (show 1 ≤ (t.buffer ++ [s]).length by simp),
        List.drop_drop, List.append_assoc, List.singleton_append]
      congr 1
      simp only [List.length_cons]
      omega

theorem applyOps_length : ∀ (ops : List TrackerOp) (t : ETATracker),
    t.buffer.length ≤ t.bufferSize →
    (applyOps t ops).buffer.length ≤ t.bufferSize ∧
    (applyOps t ops).bufferSize = t.bufferSize := by
  intro ops
  induction ops with
  | nil => intro t h; exact ⟨h, rfl⟩
  | cons op ops ih =>
    intro t h
    have hstep : applyOps t (op :: ops) = applyOps (applyOp t op) ops := by
      simp [applyOps]
    rw [hstep]
    cases op with
    | record v tm =>
      obtain ⟨-, hlen, hsize⟩ := record_buffer t ⟨tm, v⟩ h
      obtain ⟨h1, h2⟩ := ih (applyOp t (.record v tm)) (by
        simp only [applyOp]
        rw [hsize]
        exact hlen)
      simp only [applyOp] at h1 h2
      rw [hsize] at h1 h2
      exact ⟨h1, h2⟩
    | reset =>
      obtain ⟨h1, h2⟩ := ih (applyOp t .reset) (by simp [applyOp, ETATracker.reset])
      simp only [applyOp, ETATracker.reset] at h1 h2
      exact ⟨h1, h2⟩

/-- Claim C5: a tracker of capacity `N` given more than `N` recordings
retains exactly the `N` most recent samples in oldest-first order (FIFO
eviction); the buffer length never exceeds `N` after any operation sequence;
and the exported default capacity is exactly 10. -/
theorem C5_tracker_invariants :
    (∀ (N : Nat) (samples : List ETASample), N < samples.length →
      (recordMany (createETATracker N) samples).getBuffer =
        samples.drop (samples.length - N)) ∧
    (∀ (N : Nat) (ops : List TrackerOp),
      (applyOps (createETATracker N) ops).buffer.length ≤ N) ∧
    DEFAULT_ETA_BUFFER_SIZE = 10 ∧
    (createETATracker).bufferSize = DEFAULT_ETA_BUFFER_SIZE := by
  refine ⟨fun N samples _ => ?_, fun N ops => ?_, rfl, rfl⟩
  · obtain ⟨h1, -, -⟩ := recordMany_buffer samples (createETATracker N)
      (by simp [createETATracker])
    simpa [ETATracker.getBuffer, createETATracker] using h1
  · exact (applyOps_length ops (createETATracker N) (by simp [createETATracker])).1

/-- Claim C5, witness: capacity 2 with three recordings keeps the two most
recent samples. -/
theorem C5_tracker_witness :
    2 < ([⟨1, 1⟩, ⟨2, 2⟩, ⟨3, 3⟩] : List ETASample).length ∧
    (recordMany (createETATracker 2) [⟨1, 1⟩, ⟨2, 2⟩, ⟨3, 3⟩]).getBuffer =
      ([⟨1, 1⟩, ⟨2, 2⟩, ⟨3, 3⟩] : List ETASample).drop
        (([⟨1, 1⟩, ⟨2, 2⟩, ⟨3, 3⟩] : List ETASample).length - 2) :=
  ⟨by simp,
   C5_tracker_invariants.1 2 [⟨1, 1⟩, ⟨2, 2⟩, ⟨3, 3⟩] (by simp)⟩
